import Mathlib

/-!
Shallow embedding of the books ETL pipeline (src/dags/dag.py, dag
`books_pipeline_dag`) and proofs of the spec's claims about it.

The three Airflow tasks are embedded as pure Lean functions:

* `get_books_data` — the Collector loop. The external HTTP/HTML collaborators
  are abstracted as `fetch : Nat → Option (List RawItem)`: `fetch page = none`
  models a non-200 response for that page, `fetch page = some l` models a 200
  response whose parsed `.product_pod` containers carry the raw fields `l`
  (`some []` is a page with zero containers).
* `transform_books_data` — the Normalizer. The pandas pipeline per column is
  embedded per item: price regex-strip / empty-to-"0" / float parse, the
  five-entry rating map (missing label → NaN, i.e. `none`), title strip.
  `astype(float)` on an unparseable residue raises, modelled as `.error`.
* `save_to_postgres` — the Persister, over an abstract committed table
  (`List NormalizedItem` of the (title, price, rating) insert tuples).
  A failure oracle `failAt : Option Nat` picks the statement (0 = CREATE
  TABLE, i = the i-th INSERT, 1-based) that raises, mirroring a psycopg2
  statement error; `none` means every statement succeeds.  The result records
  the outcome, the committed table, the connection state at exit, how many
  commits ran, and the Python return value of the function.
-/

/-- One raw record as built by the Collector:
`{"title": ..., "price": ..., "rating": ...}` (all strings). -/
structure RawItem where
  title : String
  price : String
  rating : String
deriving DecidableEq, Repr

/-- The inner `for container in book_containers` loop: append each container's
record, breaking as soon as `len(books) >= num_books`. -/
def extractLoop (numBooks : Nat) (containers : List RawItem)
    (books : List RawItem) : List RawItem :=
  match containers with
  | [] => books
  | c :: rest =>
    if numBooks ≤ (books ++ [c]).length then books ++ [c]
    else extractLoop numBooks rest (books ++ [c])

theorem extractLoop_length_lt (numBooks : Nat) (containers : List RawItem)
    (books : List RawItem) (hne : containers ≠ []) :
    books.length < (extractLoop numBooks containers books).length := by
  match containers with
  | [] => exact absurd rfl hne
  | c :: rest =>
    rw [extractLoop]
    by_cases h : numBooks ≤ (books ++ [c]).length
    · rw [if_pos h]; simp
    · rw [if_neg h]
      rcases rest with _ | ⟨d, rest'⟩
      · rw [extractLoop]; simp
      · have h' := extractLoop_length_lt numBooks (d :: rest') (books ++ [c]) (by simp)
        have h'' : books.length < (books ++ [c]).length := by simp
        omega

/-- The outer `while len(books) < num_books` loop of `get_books_data`:
fetch the page, break on non-200 (`none`) or zero containers (`some []`),
otherwise run the inner extraction loop and move to the next page. -/
def pageLoop (fetch : Nat → Option (List RawItem)) (numBooks : Nat)
    (page : Nat) (books : List RawItem) : List RawItem :=
  if _h : books.length < numBooks then
    match fetch page with
    | none => books
    | some [] => books
    | some (c :: rest) =>
        pageLoop fetch numBooks (page + 1) (extractLoop numBooks (c :: rest) books)
  else books
termination_by numBooks - books.length
decreasing_by
  have := extractLoop_length_lt numBooks (c :: rest) books (by simp)
  omega

/-- The Collector task body `get_books_data(num_books, ti)`: starts with an
empty accumulator at page 1; the resulting list is what is pushed to xcom
under key "raw_book_data". -/
def get_books_data (fetch : Nat → Option (List RawItem)) (numBooks : Nat) :
    List RawItem :=
  pageLoop fetch numBooks 1 []

/-- Concatenation of the container lists of `k` consecutive pages starting at
`page` (a failed page contributes nothing). -/
def flattenPages (fetch : Nat → Option (List RawItem)) (page k : Nat) :
    List RawItem :=
  match k with
  | 0 => []
  | k + 1 => ((fetch page).getD []) ++ flattenPages fetch (page + 1) k

/-- Pages `page, page+1, ..., page+k-1` all answer 200 with at least one
container. -/
def goodPages (fetch : Nat → Option (List RawItem)) (page k : Nat) : Prop :=
  ∀ i, i < k → ∃ l, fetch (page + i) = some l ∧ l ≠ []

theorem extractLoop_eq_take (numBooks : Nat) (containers books : List RawItem)
    (hlt : books.length < numBooks) :
    extractLoop numBooks containers books = (books ++ containers).take numBooks := by
  induction containers generalizing books with
  | nil =>
    rw [extractLoop, List.append_nil, List.take_of_length_le (by omega)]
  | cons c rest ih =>
    rw [extractLoop]
    by_cases h : numBooks ≤ (books ++ [c]).length
    · rw [if_pos h]
      have hlen : (books ++ [c]).length = books.length + 1 := by simp
      have hn : numBooks = books.length + 1 := by omega
      rw [List.take_append_eq_append_take, List.take_of_length_le (by omega), hn]
      have h1 : books.length + 1 - books.length = 1 := by omega
      simp [h1]
    · rw [if_neg h]
      have hlt' : (books ++ [c]).length < numBooks := by omega
      rw [ih (books ++ [c]) hlt']
      simp

theorem goodPages_tail (fetch : Nat → Option (List RawItem)) (page k : Nat)
    (hg : goodPages fetch page (k + 1)) : goodPages fetch (page + 1) k := by
  intro i hi
  have h := hg (i + 1) (by omega)
  have he : page + (i + 1) = page + 1 + i := by omega
  rw [he] at h
  exact h

theorem pageLoop_stop (fetch : Nat → Option (List RawItem)) (numBooks page : Nat)
    (books : List RawItem) (h : numBooks ≤ books.length) :
    pageLoop fetch numBooks page books = books := by
  rw [pageLoop, dif_neg (by omega)]

/-- When `k` consecutive good pages supply at least the missing number of
items, the page loop returns the first `numBooks` items of the accumulated
prefix plus those pages' containers. -/
theorem pageLoop_eq_take (fetch : Nat → Option (List RawItem)) (numBooks : Nat)
    (k : Nat) : ∀ page books, books.length < numBooks →
    goodPages fetch page k →
    numBooks ≤ books.length + (flattenPages fetch page k).length →
    pageLoop fetch numBooks page books =
      (books ++ flattenPages fetch page k).take numBooks := by
  induction k with
  | zero =>
    intro page books hlt _ hge
    simp [flattenPages] at hge
    omega
  | succ k ih =>
    intro page books hlt hg hge
    obtain ⟨l, hfl, hlne⟩ := hg 0 (by omega)
    rw [Nat.add_zero] at hfl
    obtain ⟨c, rest, rfl⟩ : ∃ c rest, l = c :: rest := by
      rcases l with _ | ⟨c, rest⟩
      · exact absurd rfl hlne
      · exact ⟨c, rest, rfl⟩
    have hflat : flattenPages fetch page (k + 1) =
        (c :: rest) ++ flattenPages fetch (page + 1) k := by
      rw [flattenPages, hfl]
      rfl
    rw [pageLoop, dif_pos hlt]
    simp only [hfl]
    rw [extractLoop_eq_take numBooks _ books hlt]
    by_cases hfull : numBooks ≤ (books ++ c :: rest).length
    · have hlen : ((books ++ c :: rest).take numBooks).length = numBooks := by
        rw [List.length_take]
        omega
      rw [pageLoop_stop fetch numBooks (page + 1) _ (by omega)]
      rw [hflat, ← List.append_assoc]
      rw [List.take_append_of_le_length hfull]
    · have heq : (books ++ c :: rest).take numBooks = books ++ c :: rest :=
        List.take_of_length_le (by omega)
      rw [heq]
      have hge' : numBooks ≤ (books ++ c :: rest).length +
          (flattenPages fetch (page + 1) k).length := by
        rw [hflat] at hge
        simp at hge ⊢
        omega
      rw [ih (page + 1) (books ++ c :: rest) (by omega)
        (goodPages_tail fetch page k hg) hge']
      rw [hflat, ← List.append_assoc]

/-- When `k` consecutive good pages supply fewer than the missing number of
items and page `page + k` fails or is empty, the page loop returns the
accumulated prefix plus everything those pages supplied. -/
theorem pageLoop_exhausted (fetch : Nat → Option (List RawItem)) (numBooks : Nat)
    (k : Nat) : ∀ page books, goodPages fetch page k →
    books.length + (flattenPages fetch page k).length < numBooks →
    (fetch (page + k) = none ∨ fetch (page + k) = some []) →
    pageLoop fetch numBooks page books = books ++ flattenPages fetch page k := by
  induction k with
  | zero =>
    intro page books _ hlt hbad
    rw [Nat.add_zero] at hbad
    simp only [flattenPages] at hlt ⊢
    rw [pageLoop, dif_pos (by omega)]
    rcases hbad with hb | hb <;> rw [hb] <;> simp
  | succ k ih =>
    intro page books hg hlt hbad
    obtain ⟨l, hfl, hlne⟩ := hg 0 (by omega)
    rw [Nat.add_zero] at hfl
    obtain ⟨c, rest, rfl⟩ : ∃ c rest, l = c :: rest := by
      rcases l with _ | ⟨c, rest⟩
      · exact absurd rfl hlne
      · exact ⟨c, rest, rfl⟩
    have hflat : flattenPages fetch page (k + 1) =
        (c :: rest) ++ flattenPages fetch (page + 1) k := by
      rw [flattenPages, hfl]
      rfl
    rw [hflat] at hlt ⊢
    have hlt1 : books.length < numBooks := by
      simp at hlt
      omega
    rw [pageLoop, dif_pos hlt1]
    simp only [hfl]
    rw [extractLoop_eq_take numBooks _ books hlt1]
    have heq : (books ++ c :: rest).take numBooks = books ++ c :: rest :=
      List.take_of_length_le (by simp at hlt ⊢; omega)
    rw [heq]
    have hbad' : fetch (page + 1 + k) = none ∨ fetch (page + 1 + k) = some [] := by
      have he : page + (k + 1) = page + 1 + k := by omega
      rw [he] at hbad
      exact hbad
    rw [ih (page + 1) (books ++ c :: rest)
      (goodPages_tail fetch page k hg) (by simp at hlt ⊢; omega) hbad']
    rw [← List.append_assoc]

-- ----------------------------------------------------------------
-- Normalizer
-- ----------------------------------------------------------------

/-- One normalized record: trimmed title, decimal price, ordinal rating
(`none` models pandas `NaN` for a label missing from the rating map). -/
structure NormalizedItem where
  title : String
  price : Rat
  rating : Option Nat
deriving DecidableEq, Repr

/-- `.str.replace(r"[^\d.]", "", regex=True)`: drop every character that is
not a digit or a literal dot (characters as the string's char list). -/
def stripNonNumeric (cs : List Char) : List Char :=
  cs.filter (fun c => c.isDigit || c = '.')

/-- Value of a digit string read in base 10. -/
def digitsToNat (cs : List Char) : Nat :=
  cs.foldl (fun a c => 10 * a + (c.toNat - 48)) 0

/-- The characters after the first `'.'` (empty when there is no dot): the
fractional digits of a decimal string with at most one dot. -/
def fracPart (cs : List Char) : List Char :=
  match cs with
  | [] => []
  | c :: rest => if c = '.' then rest else fracPart rest

/-- Numeric value of a decimal string `whole` / `whole.frac` / `.frac` made of
digits and at most one dot: all digits read as an integer, scaled down by one
power of ten per fractional digit. -/
def decimalValue (cs : List Char) : Rat :=
  (digitsToNat (cs.filter Char.isDigit) : Rat) / (10 ^ (fracPart cs).length)

/-- Python `float(s)` restricted to the digit/dot alphabet the strip leaves
behind: succeeds iff there is at most one dot and at least one digit
(`"."`, `""`, `"1.2.3"` raise `ValueError`, modelled as `none`). -/
def parseDecimal (cs : List Char) : Option Rat :=
  if (∀ c ∈ cs, c.isDigit ∨ c = '.') ∧
      (cs.filter (fun c => c = '.')).length ≤ 1 ∧
      cs.any Char.isDigit then
    some (decimalValue cs)
  else none

/-- The price column pipeline: strip non-numeric characters, replace an empty
residue by `"0"`, parse as a float (`none` = `astype(float)` raised). -/
def clean_price (s : String) : Option Rat :=
  parseDecimal (if stripNonNumeric s.data = [] then ['0'] else stripNonNumeric s.data)

/-- Python `str.strip()` as applied by `.str.strip()` to the title column:
drop leading and trailing whitespace. -/
def pyStrip (s : String) : String :=
  String.mk (((s.data.dropWhile Char.isWhitespace).reverse.dropWhile
    Char.isWhitespace).reverse)

/-- `rating_map = {"One": 1, "Two": 2, "Three": 3, "Four": 4, "Five": 5}`;
`Series.map` yields NaN (`none`) for a label with no entry. -/
def rating_map (s : String) : Option Nat :=
  if s = "One" then some 1
  else if s = "Two" then some 2
  else if s = "Three" then some 3
  else if s = "Four" then some 4
  else if s = "Five" then some 5
  else none

/-- Per-row effect of the three column transformations (they are elementwise
and row-independent): price cleaned, rating mapped, title stripped.
`none` when the price residue does not parse (the pandas call raises). -/
def normalizeItem (r : RawItem) : Option NormalizedItem :=
  (clean_price r.price).map (fun p => ⟨pyStrip r.title, p, rating_map r.rating⟩)

/-- Observable outcome of the Normalizer task: `noData` = empty/absent input
(warning logged, nothing pushed), `error` = the price coercion raised,
`emitted items` = `items` pushed to xcom under "cleaned_book_data". -/
inductive TransformResult where
  | noData
  | error
  | emitted (items : List NormalizedItem)
deriving DecidableEq, Repr

/-- Row-wise application of `normalizeItem` to the whole record set: the
pandas column operations act elementwise, and an unparseable price residue
makes `astype(float)` raise for the whole call (`none`). -/
def normalizeAll (records : List RawItem) : Option (List NormalizedItem) :=
  match records with
  | [] => some []
  | r :: rest =>
    match normalizeItem r, normalizeAll rest with
    | some v, some vs => some (v :: vs)
    | _, _ => none

/-- The Normalizer task body `transform_books_data(ti)` on the pulled raw
records. -/
def transform_books_data (records : List RawItem) : TransformResult :=
  if records = [] then .noData
  else
    match normalizeAll records with
    | none => .error
    | some items => .emitted items

-- ----------------------------------------------------------------
-- Persister
-- ----------------------------------------------------------------

/-- State of the psycopg2 connection when `save_to_postgres` exits:
never acquired (early return), still open (an exception escaped before
`conn.close()`), or closed by `conn.close()`. -/
inductive ConnState where
  | neverOpened
  | stillOpen
  | closed
deriving DecidableEq, Repr

/-- Observable outcome of the Persister task: `noData` = empty/absent input
(warning logged, early return), `done n` = success, the final log line reports
`n` records loaded, `raised k` = statement `k` raised a database error that
propagates out of the task (0 = `CREATE TABLE`, `k ≥ 1` = the `k`-th
`INSERT`, 1-based). -/
inductive SaveOutcome where
  | noData
  | done (n : Nat)
  | raised (k : Nat)
deriving DecidableEq, Repr

/-- Exit snapshot of one `save_to_postgres` run: outcome, the committed
`books` table (as the list of inserted (title, price, rating) tuples, in
insertion order), the connection state, how many times `conn.commit()` ran,
and the Python return value of the function. -/
structure SaveResult where
  outcome : SaveOutcome
  table : List NormalizedItem
  conn : ConnState
  commits : Nat
  retVal : Option Nat
deriving DecidableEq, Repr

/-- The `for r in records: cur.execute(INSERT ...)` loop under the failure
oracle: `some k` when statement `k` (the insert numbered `idx`, counting on)
raises, `none` when every insert succeeds. -/
def runInserts (failAt : Option Nat) (records : List NormalizedItem)
    (idx : Nat) : Option Nat :=
  match records with
  | [] => none
  | _ :: rest => if failAt = some idx then some idx else runInserts failAt rest (idx + 1)

/-- The Persister task body `save_to_postgres(ti)` over an abstract committed
table. `failAt = some k` makes database statement `k` raise (0 = the
`CREATE TABLE IF NOT EXISTS`, `k ≥ 1` = the `k`-th `INSERT`); `none` makes
every statement succeed. Uncommitted inserts are transaction-local, so a
raise leaves the committed table unchanged; the source has no `try`/`finally`
around the connection, so an exception exits before `cur.close()` and
`conn.close()` run; on every non-raising path the function returns `None`
(it has no `return <value>` statement). -/
def save_to_postgres (records : List NormalizedItem) (failAt : Option Nat)
    (table : List NormalizedItem) : SaveResult :=
  if records = [] then
    ⟨.noData, table, .neverOpened, 0, none⟩
  else if failAt = some 0 then
    ⟨.raised 0, table, .stillOpen, 0, none⟩
  else
    match runInserts failAt records 1 with
    | some k => ⟨.raised k, table, .stillOpen, 0, none⟩
    | none => ⟨.done records.length, table ++ records, .closed, 1, none⟩

-- ----------------------------------------------------------------
-- Helper lemmas
-- ----------------------------------------------------------------

theorem normalizeAll_eq_map (l : List RawItem)
    (h : ∀ r ∈ l, (normalizeItem r).isSome) :
    normalizeAll l =
      some (l.map (fun r => (normalizeItem r).getD ⟨"", 0, none⟩)) := by
  induction l with
  | nil => rfl
  | cons a t ih =>
    have ha := h a (List.mem_cons_self a t)
    obtain ⟨v, hv⟩ := Option.isSome_iff_exists.mp ha
    rw [normalizeAll, hv, ih (fun r hr => h r (List.mem_cons_of_mem a hr))]
    simp [hv]

theorem runInserts_none (records : List NormalizedItem) :
    ∀ idx, runInserts none records idx = none := by
  induction records with
  | nil => intro idx; rfl
  | cons a rest ih =>
    intro idx
    rw [runInserts, if_neg (by simp)]
    exact ih (idx + 1)

theorem runInserts_fail (records : List NormalizedItem) :
    ∀ idx k, idx ≤ k → k < idx + records.length →
    runInserts (some k) records idx = some k := by
  induction records with
  | nil =>
    intro idx k h1 h2
    simp at h2
    omega
  | cons a rest ih =>
    intro idx k h1 h2
    rw [runInserts]
    by_cases h : k = idx
    · subst h
      rw [if_pos rfl]
    · rw [if_neg (by simpa using h)]
      exact ih (idx + 1) k (by omega) (by simp at h2 ⊢; omega)

theorem save_success (records table : List NormalizedItem) (hne : records ≠ []) :
    save_to_postgres records none table =
      ⟨.done records.length, table ++ records, .closed, 1, none⟩ := by
  rw [save_to_postgres, if_neg hne, if_neg (by simp)]
  simp [runInserts_none]

theorem save_fail (records table : List NormalizedItem) (k : Nat)
    (hne : records ≠ []) (hk : k ≤ records.length) :
    save_to_postgres records (some k) table =
      ⟨.raised k, table, .stillOpen, 0, none⟩ := by
  rcases Nat.eq_zero_or_pos k with rfl | hpos
  · rw [save_to_postgres, if_neg hne, if_pos rfl]
  · rw [save_to_postgres, if_neg hne, if_neg (by simp; omega)]
    simp [runInserts_fail records 1 k hpos (by omega)]

theorem save_empty (table : List NormalizedItem) (failAt : Option Nat) :
    save_to_postgres [] failAt table =
      ⟨.noData, table, .neverOpened, 0, none⟩ := by
  rw [save_to_postgres, if_pos rfl]

-- ----------------------------------------------------------------
-- Concrete fixtures used by the witnesses
-- ----------------------------------------------------------------

/-- Sample scraped records. -/
def bkA : RawItem := ⟨"A", "£1.00", "One"⟩

def bkB : RawItem := ⟨"B", "£2.00", "Two"⟩

def bkC : RawItem := ⟨"C", "£3.00", "Three"⟩

def bkD : RawItem := ⟨"D", "£4.00", "Four"⟩

/-- A catalog source with two good pages of two books each, 404 afterwards. -/
def fetchTwoPages : Nat → Option (List RawItem) :=
  fun p => if p = 1 then some [bkA, bkB] else if p = 2 then some [bkC, bkD] else none

/-- A catalog source with one good page of one book, 404 afterwards. -/
def fetchOnePage : Nat → Option (List RawItem) :=
  fun p => if p = 1 then some [bkA] else none

/-- A sample normalized record. -/
def rowA : NormalizedItem := ⟨"A", 1, some 1⟩

-- ----------------------------------------------------------------
-- Claim theorems
-- ----------------------------------------------------------------

/-- C1. For every target count `numBooks ≥ 1`, if the source provides at
least `numBooks` items across its pages (here: `k` consecutive successful
non-empty pages holding at least `numBooks` items in total), `get_books_data`
returns exactly `numBooks` raw items, namely the first `numBooks` items in
page order — the inner loop stops extracting mid-page as soon as the
accumulator reaches the target. -/
theorem collector_returns_exactly_target
    (fetch : Nat → Option (List RawItem)) (numBooks k : Nat)
    (h1 : 1 ≤ numBooks) (hg : goodPages fetch 1 k)
    (hge : numBooks ≤ (flattenPages fetch 1 k).length) :
    get_books_data fetch numBooks = (flattenPages fetch 1 k).take numBooks ∧
    (get_books_data fetch numBooks).length = numBooks := by
  have h := pageLoop_eq_take fetch numBooks k 1 []
    (by simpa using h1) hg (by simpa using hge)
  rw [get_books_data]
  simp only [List.nil_append] at h
  refine ⟨h, ?_⟩
  rw [h, List.length_take]
  omega

/-- Witness for C1 at a concrete source: two pages of two books each and a
target of 3 make the Collector return the first three books, cutting the
second page short. -/
theorem collector_returns_exactly_target_witness :
    get_books_data fetchTwoPages 3 = (flattenPages fetchTwoPages 1 2).take 3 ∧
    (get_books_data fetchTwoPages 3).length = 3 :=
  collector_returns_exactly_target fetchTwoPages 3 2 (by decide)
    (by
      intro i hi
      interval_cases i
      · exact ⟨[bkA, bkB], rfl, by simp⟩
      · exact ⟨[bkC, bkD], rfl, by simp⟩)
    (by
      rw [show flattenPages fetchTwoPages 1 2 = [bkA, bkB, bkC, bkD] from rfl]
      simp)

/-- C8. For every target count, when the Collector hits a non-200 response
(`none`) or a page with zero containers (`some []`) before reaching the
target, it terminates normally (no exception — the embedding is total) and
returns exactly the items collected from the good pages before that point. -/
theorem collector_accepts_partial
    (fetch : Nat → Option (List RawItem)) (numBooks k : Nat)
    (hg : goodPages fetch 1 k)
    (hlt : (flattenPages fetch 1 k).length < numBooks)
    (hbad : fetch (1 + k) = none ∨ fetch (1 + k) = some []) :
    get_books_data fetch numBooks = flattenPages fetch 1 k := by
  have h := pageLoop_exhausted fetch numBooks k 1 [] hg (by simpa using hlt) hbad
  rw [get_books_data, h]
  simp

/-- Witness for C8 at a concrete source: one good page of one book, then a
404; with target 5 the Collector stops and returns that single book. -/
theorem collector_accepts_partial_witness :
    get_books_data fetchOnePage 5 = flattenPages fetchOnePage 1 1 :=
  collector_accepts_partial fetchOnePage 5 1
    (by
      intro i hi
      interval_cases i
      exact ⟨[bkA], rfl, by simp⟩)
    (by
      rw [show flattenPages fetchOnePage 1 1 = [bkA] from rfl]
      simp)
    (Or.inl rfl)

/-- C4. The Normalizer maps each raw record independently and in order to
exactly one normalized record — stripped non-digit/non-dot characters in the
price (empty residue read as "0") parsed as a decimal, the fixed ordinal
lookup for the rating, trimmed title — and on the spec's example
`{" Book A ", "£12.50", "Three"}` produces `{"Book A", 12.50, 3}`. -/
theorem normalizer_maps_independently :
    (∀ records : List RawItem, records ≠ [] →
      (∀ r ∈ records, (normalizeItem r).isSome) →
      transform_books_data records =
        .emitted (records.map (fun r => (normalizeItem r).getD ⟨"", 0, none⟩))) ∧
    normalizeItem ⟨" Book A ", "£12.50", "Three"⟩ =
      some ⟨"Book A", 12.5, some 3⟩ := by
  constructor
  · intro records hne hall
    rw [transform_books_data, if_neg hne, normalizeAll_eq_map records hall]
  · have hp : clean_price "£12.50" = some 12.5 := by
      rw [clean_price,
        show (if stripNonNumeric "£12.50".data = []
            then ['0'] else stripNonNumeric "£12.50".data)
          = ['1', '2', '.', '5', '0'] from by decide,
        parseDecimal, if_pos (by decide), decimalValue,
        show (['1', '2', '.', '5', '0'].filter Char.isDigit)
          = ['1', '2', '5', '0'] from by decide,
        show fracPart ['1', '2', '.', '5', '0'] = ['5', '0'] from by decide,
        show digitsToNat ['1', '2', '5', '0'] = 1250 from by decide]
      norm_num
    rw [normalizeItem]
    simp only [hp]
    rw [show pyStrip " Book A " = "Book A" from by decide,
      show rating_map "Three" = some 3 from rfl]
    rfl

/-- Witness for C4: the example record alone runs through the whole
Normalizer task and is emitted as its one-element normalized set. -/
theorem normalizer_maps_independently_witness :
    transform_books_data [⟨" Book A ", "£12.50", "Three"⟩] =
      .emitted ([⟨" Book A ", "£12.50", "Three"⟩].map
        (fun r => (normalizeItem r).getD ⟨"", 0, none⟩)) :=
  normalizer_maps_independently.1 [⟨" Book A ", "£12.50", "Three"⟩] (by simp)
    (by
      intro r hr
      rw [List.mem_singleton] at hr
      subst hr
      rw [normalizer_maps_independently.2]
      rfl)

/-- C5. The five known rating labels map to exactly 1–5; every other label
maps to the missing value `none`. The map is a total function, so no label
makes it raise. -/
theorem rating_map_spec :
    rating_map "One" = some 1 ∧ rating_map "Two" = some 2 ∧
    rating_map "Three" = some 3 ∧ rating_map "Four" = some 4 ∧
    rating_map "Five" = some 5 ∧
    ∀ s : String, s ∉ (["One", "Two", "Three", "Four", "Five"] : List String) →
      rating_map s = none := by
  refine ⟨rfl, rfl, rfl, rfl, rfl, ?_⟩
  intro s hs
  simp only [List.mem_cons, List.not_mem_nil, or_false, not_or] at hs
  obtain ⟨h1, h2, h3, h4, h5⟩ := hs
  rw [rating_map, if_neg h1, if_neg h2, if_neg h3, if_neg h4, if_neg h5]

/-- Witness for C5 at the unknown label "Zero": it maps to `none`. -/
theorem rating_map_spec_witness : rating_map "Zero" = none :=
  rating_map_spec.2.2.2.2.2 "Zero" (by decide)

/-- C9. Price normalization is idempotent on already-numeric strings: for a
price string made only of digits and a single dot (with at least one digit),
the strip-and-parse pipeline agrees with parsing the string directly, and
both succeed. -/
theorem clean_price_idempotent_numeric (s : String)
    (hall : ∀ c ∈ s.data, c.isDigit ∨ c = '.')
    (hdot : (s.data.filter (fun c => c = '.')).length = 1)
    (hdig : s.data.any Char.isDigit) :
    clean_price s = parseDecimal s.data ∧
    ∃ q, parseDecimal s.data = some q := by
  have hstrip : stripNonNumeric s.data = s.data := by
    rw [stripNonNumeric, List.filter_eq_self]
    intro c hc
    rcases hall c hc with h | h
    · simp [h]
    · simp [h]
  have hne : s.data ≠ [] := by
    rcases List.any_eq_true.mp hdig with ⟨c, hc, _⟩
    intro he
    rw [he] at hc
    exact absurd hc (List.not_mem_nil c)
  constructor
  · rw [clean_price, hstrip, if_neg hne]
  · exact ⟨decimalValue s.data, by rw [parseDecimal, if_pos ⟨hall, by omega, hdig⟩]⟩

/-- Witness for C9 at the already-numeric price "12.50". -/
theorem clean_price_idempotent_numeric_witness :
    clean_price "12.50" = parseDecimal "12.50".data ∧
    ∃ q, parseDecimal "12.50".data = some q :=
  clean_price_idempotent_numeric "12.50" (by decide) (by decide) (by decide)

/-- C10. The price pipeline is not total: the string "." keeps a non-empty
residue after the strip (so the treat-as-zero guard does not apply), yet is
not a parseable decimal, so the coercion raises — the record never becomes a
normalized item and the whole Normalizer task errors. -/
theorem clean_price_not_total :
    stripNonNumeric ".".data = ['.'] ∧ ('.' :: []) ≠ ([] : List Char) ∧
    clean_price "." = none ∧
    transform_books_data [⟨"B", ".", "One"⟩] = .error := by
  refine ⟨by decide, by decide, by decide, ?_⟩
  rw [transform_books_data, if_neg (by simp)]
  rw [show normalizeAll [⟨"B", ".", "One"⟩] = none from by
    rw [normalizeAll, show normalizeItem ⟨"B", ".", "One"⟩ = none from by
      rw [normalizeItem, show clean_price "." = none from by decide]
      rfl]]

/-- C2 counterexample. The claim "the connection acquired at the start is
closed before the function exits on every exit path, including a raising
statement" is false on the code: `save_to_postgres` has no `try`/`finally`,
so when the first insert raises, the exception escapes with the connection
still open. -/
theorem persister_connection_cex :
    (save_to_postgres [⟨"b", 1, some 1⟩] (some 1) []).outcome = .raised 1 ∧
    (save_to_postgres [⟨"b", 1, some 1⟩] (some 1) []).conn ≠ ConnState.closed := by
  have h := save_fail [⟨"b", 1, some 1⟩] [] 1 (by simp) (by simp)
  rw [h]
  exact ⟨rfl, by simp⟩

/-- C2 (amended). The Persister closes the connection on the successful path
(after the single commit) and never opens one on the empty-input path; on the
path where a database statement raises, the error propagates with the
connection left open — the function itself releases it only on success. -/
theorem persister_connection_on_paths (records table : List NormalizedItem)
    (hne : records ≠ []) :
    (save_to_postgres records none table).conn = ConnState.closed ∧
    (∀ k, k ≤ records.length →
      (save_to_postgres records (some k) table).conn = ConnState.stillOpen) ∧
    (save_to_postgres [] none table).conn = ConnState.neverOpened := by
  refine ⟨?_, ?_, ?_⟩
  · rw [save_success records table hne]
  · intro k hk
    rw [save_fail records table k hne hk]
  · rw [save_empty]

/-- Witness for the amended C2 on a one-record input: success closes the
connection, a raising insert leaves it open. -/
theorem persister_connection_on_paths_witness :
    (save_to_postgres [rowA] none []).conn = ConnState.closed ∧
    (save_to_postgres [rowA] (some 1) []).conn = ConnState.stillOpen :=
  ⟨(persister_connection_on_paths [rowA] [] (by simp)).1,
   (persister_connection_on_paths [rowA] [] (by simp)).2.1 1 (by simp)⟩

/-- C3 counterexample. The claim "the Persister returns the count of rows
written" is false on the code: on a successful one-record run one row is
written, but the function body contains no `return <value>` statement — its
Python return value is `None`, the count appears only in the success log
line. -/
theorem persister_return_value_cex :
    (save_to_postgres [⟨"c", 2, some 2⟩] none []).table.length = 1 ∧
    (save_to_postgres [⟨"c", 2, some 2⟩] none []).retVal = none := by
  have h := save_success [⟨"c", 2, some 2⟩] [] (by simp)
  rw [h]
  exact ⟨rfl, rfl⟩

/-- C3 (amended). The Persister reports rather than returns the count of rows
written: for non-empty input of `N` items (every statement succeeding) it
inserts `N` rows and its success log reports `N`, its Python return value
being `None`; for empty or absent input it logs a warning and returns `None`
without touching the database (no connection, no commit, 0 rows written). -/
theorem persister_reports_count (records table : List NormalizedItem) :
    (records = [] → save_to_postgres records none table =
      ⟨.noData, table, .neverOpened, 0, none⟩) ∧
    (records ≠ [] →
      (save_to_postgres records none table).outcome = .done records.length ∧
      (save_to_postgres records none table).table.length =
        table.length + records.length ∧
      (save_to_postgres records none table).retVal = none) := by
  constructor
  · intro he
    subst he
    rw [save_empty]
  · intro hne
    rw [save_success records table hne]
    refine ⟨rfl, by simp, rfl⟩

/-- Witness for the amended C3: one record loads one row with outcome log
count 1, and the empty input is a pure no-op. -/
theorem persister_reports_count_witness :
    save_to_postgres [] none [] =
      ⟨.noData, [], .neverOpened, 0, none⟩ ∧
    (save_to_postgres [rowA] none []).outcome = .done 1 :=
  ⟨(persister_reports_count [] []).1 rfl,
   ((persister_reports_count [rowA] []).2 (by simp)).1⟩

/-- C6. A successful run appends exactly the input tuples, in order, after
the existing rows (no modification, no deduplication), and running the same
input twice appends them twice: `2 × N` new rows. -/
theorem persister_appends_in_order (records table : List NormalizedItem) :
    (save_to_postgres records none table).table = table ++ records ∧
    (save_to_postgres records none
        ((save_to_postgres records none table).table)).table =
      table ++ records ++ records ∧
    (save_to_postgres records none
        ((save_to_postgres records none table).table)).table.length =
      table.length + 2 * records.length := by
  have hone : ∀ t : List NormalizedItem,
      (save_to_postgres records none t).table = t ++ records := by
    intro t
    rcases records with _ | ⟨r, rest⟩
    · rw [save_empty]
      simp
    · rw [save_success (r :: rest) t (by simp)]
  refine ⟨hone table, ?_, ?_⟩
  · rw [hone table, hone (table ++ records), List.append_assoc]
  · rw [hone table, hone (table ++ records)]
    simp
    omega

/-- C7. The Persister commits exactly once, after all inserts succeeded; when
any statement raises (the `CREATE TABLE`, `k = 0`, or any of the `N` inserts,
`1 ≤ k ≤ N`), the error propagates, no commit happens, and the committed
table is unchanged — no partial set of rows from the run is persisted. -/
theorem persister_commit_once_or_nothing (records table : List NormalizedItem)
    (hne : records ≠ []) :
    ((save_to_postgres records none table).commits = 1 ∧
      (save_to_postgres records none table).outcome = .done records.length) ∧
    ∀ k, k ≤ records.length →
      save_to_postgres records (some k) table =
        ⟨.raised k, table, .stillOpen, 0, none⟩ := by
  constructor
  · rw [save_success records table hne]
    exact ⟨rfl, rfl⟩
  · intro k hk
    exact save_fail records table k hne hk

/-- Witness for C7 on a one-record input: success commits once; a raising
insert leaves commits at zero and the table unchanged. -/
theorem persister_commit_once_or_nothing_witness :
    (save_to_postgres [rowA] none []).commits = 1 ∧
    save_to_postgres [rowA] (some 1) [] =
      ⟨.raised 1, [], .stillOpen, 0, none⟩ :=
  ⟨(persister_commit_once_or_nothing [rowA] [] (by simp)).1.1,
   (persister_commit_once_or_nothing [rowA] [] (by simp)).2 1 (by simp)⟩
